import Mathlib

/-!
# ra-multiplex server core: shallow embedding and verification

This file embeds the core of `src/server.rs` (an LSP relay) as executable
Lean definitions over byte lists (`List Nat`, each element a byte value),
and proves properties of the frame codec (`copy_io`), the handshake reader
(`process_client`) and the accept-error handling (`main`).

Streams are modelled as finite byte lists; `tokio`'s `read_until` /
`read_exact` become pure list splits.  Fallible steps return `Except` /
`Option`.  The external JSON parser (`serde_json`) is a parameter of the
relay step, so theorems hold for every parser; a small concrete instance
is provided for closed examples.
-/

namespace RaMultiplex

/-- Model of `AsyncBufReadExt::read_until(byte, buf)`: split the stream
into the chunk up to and including the first occurrence of `t`, and the
remainder.  If `t` does not occur, the whole stream is consumed (EOF ends
the read without error, exactly like `read_until`). -/
def readUntilByte (t : Nat) : List Nat → List Nat × List Nat
  | [] => ([], [])
  | b :: rest =>
    if b = t then ([b], rest)
    else
      let p := readUntilByte t rest
      (b :: p.1, p.2)

/-- Model of slice `strip_suffix`: remove `suf` from the end of `l`, or
`none` when `l` does not end with `suf`. -/
def stripSuffix (suf l : List Nat) : Option (List Nat) :=
  if suf.isSuffixOf l then some (l.take (l.length - suf.length)) else none

/-- The bytes of the header mark `Content-Length: ` (with trailing space),
as matched case-sensitively by `strip_prefix` in `copy_io`. -/
def clMark : List Nat :=
  [67, 111, 110, 116, 101, 110, 116, 45, 76, 101, 110, 103, 116, 104, 58, 32]

/-- The bytes of the header mark `Content-Type: ` (with trailing space),
as matched case-sensitively by `strip_prefix` in `copy_io`. -/
def ctMark : List Nat :=
  [67, 111, 110, 116, 101, 110, 116, 45, 84, 121, 112, 101, 58, 32]

/-- The leading-byte table of UTF-8 (as enforced by `str::from_utf8`):
for a sequence-leading byte, the number of continuation bytes that must
follow and the allowed range of the first of them (later continuation
bytes always range over `0x80..=0xBF`); `none` for an invalid leading
byte.  The narrowed first-continuation ranges for `0xE0`, `0xED`, `0xF0`
and `0xF4` reject overlong forms, surrogates and values above
`U+10FFFF`. -/
def utf8Need (b : Nat) : Option (Nat × Nat × Nat) :=
  if b ≤ 127 then some (0, 0, 0)
  else if b < 194 then none
  else if b ≤ 223 then some (1, 128, 191)
  else if b = 224 then some (2, 160, 191)
  else if b = 237 then some (2, 128, 159)
  else if b ≤ 239 then some (2, 128, 191)
  else if b = 240 then some (3, 144, 191)
  else if b ≤ 243 then some (3, 128, 191)
  else if b = 244 then some (3, 128, 143)
  else none

/-- The UTF-8 validation walk: `pending` continuation bytes are still
owed, the next one constrained to `lo..=hi`. -/
def utf8ValidSt : Nat → Nat → Nat → List Nat → Bool
  | 0, _, _, [] => true
  | 0, _, _, b :: rest =>
    match utf8Need b with
    | none => false
    | some (k, lo, hi) => utf8ValidSt k lo hi rest
  | _ + 1, _, _, [] => false
  | k + 1, lo, hi, c :: rest =>
    if lo ≤ c ∧ c ≤ hi then utf8ValidSt k 128 191 rest else false

/-- UTF-8 validity of a byte sequence, as checked by `str::from_utf8`. -/
def utf8Valid (l : List Nat) : Bool := utf8ValidSt 0 0 0 l

/-- The numeric value of an ASCII decimal digit byte, or `none`. -/
def digitVal (b : Nat) : Option Nat :=
  if 48 ≤ b ∧ b ≤ 57 then some (b - 48) else none

/-- Accumulating decimal parse over digit bytes; fails on any non-digit. -/
def parseDigits : List Nat → Nat → Option Nat
  | [], acc => some acc
  | b :: bs, acc =>
    match digitVal b with
    | none => none
    | some d => parseDigits bs (acc * 10 + d)

/-- Model of `str::parse::<usize>()` on a 64-bit target: an optional
leading `+`, then one or more decimal digits, value at most
`2 ^ 64 - 1` (larger values overflow `usize` and fail to parse). -/
def parseUsize (bs : List Nat) : Option Nat :=
  let digits := match bs with
    | 43 :: t => t
    | _ => bs
  if digits = [] then none
  else
    match parseDigits digits 0 with
    | none => none
    | some n => if n < 2 ^ 64 then some n else none

/-- Big-endian decimal digit bytes of `n`, with an explicit fuel argument
(`fuel ≥ n` suffices); produces `[]` for `n = 0`. -/
def natToDecimalAux : Nat → Nat → List Nat
  | 0, _ => []
  | fuel + 1, n => if n = 0 then [] else natToDecimalAux fuel (n / 10) ++ [n % 10 + 48]

/-- The decimal representation of `n` as ASCII bytes, exactly as produced
by Rust's `Display` for unsigned integers (`format!` in `copy_io`). -/
def natToDecimal (n : Nat) : List Nat :=
  if n = 0 then [48] else natToDecimalAux n n

example : natToDecimal 0 = [48] := by decide
example : natToDecimal 107 = [49, 48, 55] := by decide
example : parseUsize [49, 48, 55] = some 107 := by decide
example : parseUsize [43, 55] = some 7 := by decide
example : parseUsize [43] = none := by decide
example : parseUsize [] = none := by decide
example : parseUsize [49, 32] = none := by decide
example : utf8Valid [67, 111] = true := by decide
example : utf8Valid [195, 169] = true := by decide
example : utf8Valid [195] = false := by decide
example : utf8Valid [237, 160, 128] = false := by decide
example : stripSuffix [13, 10] [65, 13, 10] = some [65] := by decide
example : stripSuffix [13, 10] [] = none := by decide
example : readUntilByte 10 [65, 10, 66] = ([65, 10], [66]) := by decide
example : readUntilByte 10 [65, 66] = ([65, 66], []) := by decide

/-- The hard failures of one `copy_io` iteration.  Each constructor is one
failure site in the source: the `expect` on `strip_suffix(b"\r\n")`, the
`expect("invalid utf8")`, the `expect("invalid content length")`, the
`panic!("invalid header: ...")`, the `expect("missing content-length")`,
the `read_exact` end-of-stream error, and the
`expect("invalid packet")` on the JSON body parse. -/
inductive FrameErr where
  | missingCrlf
  | invalidUtf8
  | invalidContentLen
  | invalidHeader
  | missingContentLen
  | bodyEof
  | invalidPacket
  deriving DecidableEq, Repr

/-- The value of a `Content-Length` header line: `str::from_utf8` followed
by `parse::<usize>` (each failure a distinct panic in the source). -/
def parseContentLen (bs : List Nat) : Except FrameErr Nat :=
  if utf8Valid bs then
    match parseUsize bs with
    | some n => .ok n
    | none => .error .invalidContentLen
  else .error .invalidUtf8

/-- The inner header loop of `copy_io` (lines 98-126): repeatedly
`read_until(b'\n')`, require a `\r\n` suffix, stop at the empty line,
record `Content-Type` and `Content-Length` values (later occurrences
overwrite earlier ones), and reject any other header line.

`fuel` bounds the number of header lines; every recursive call consumes at
least two input bytes, so any `fuel > input.length` is ample and the
`fuel = 0` branch is unreachable for such fuel (lemma
`readHeadersF_fuel_irrel`).  Its value mirrors the empty-read failure of an
exhausted stream. -/
def readHeadersF :
    Nat → List Nat → Option (List Nat) → Option Nat →
      Except FrameErr (Option (List Nat) × Option Nat × List Nat)
  | 0, _, _, _ => .error .missingCrlf
  | fuel + 1, input, ctype, clen =>
    let chunk := (readUntilByte 10 input).1
    let rest := (readUntilByte 10 input).2
    match stripSuffix [13, 10] chunk with
    | none => .error .missingCrlf
    | some text =>
      if text = [] then .ok (ctype, clen, rest)
      else if ctMark.isPrefixOf text then
        readHeadersF fuel rest (some (text.drop ctMark.length)) clen
      else if clMark.isPrefixOf text then
        match parseContentLen (text.drop clMark.length) with
        | .error e => .error e
        | .ok n => readHeadersF fuel rest ctype (some n)
      else .error .invalidHeader

/-- The header block reader of `copy_io`, with ample fuel: returns the
recorded `Content-Type` value, the recorded `Content-Length` value, and
the unconsumed remainder of the stream. -/
def readHeaders (input : List Nat) (ctype : Option (List Nat)) (clen : Option Nat) :
    Except FrameErr (Option (List Nat) × Option Nat × List Nat) :=
  readHeadersF (input.length + 1) input ctype clen

/-- The frame decode step of `copy_io` (lines 98-132): read the header
block, require a recorded `Content-Length`, then read exactly that many
body bytes (`packet.resize` + `read_exact`; a stream ending early is a
hard failure).  Returns the declared length, the body bytes, and the
unconsumed remainder. -/
def readFrame (input : List Nat) : Except FrameErr (Nat × List Nat × List Nat) :=
  match readHeaders input none none with
  | .error e => .error e
  | .ok (_, clen, rest) =>
    match clen with
    | none => .error .missingContentLen
    | some n =>
      if rest.length < n then .error .bodyEof
      else .ok (n, rest.take n, rest.drop n)

/-- A JSON value, the carrier type for the external `serde_json` parser
(numbers and strings carried as raw bytes; exact numeric representation
is irrelevant to the relay, which never interprets values). -/
inductive JValue where
  | null
  | boolean (b : Bool)
  | number (s : List Nat)
  | string (s : List Nat)
  | array (xs : List JValue)
  | object (fields : List (List Nat × JValue))

/-- A parsed JSON top-level object: ordered fields with byte-string keys;
`serde_json::Map` lookup is modelled by first-match association lookup
(parsed maps have unique keys). -/
abbrev JObject := List (List Nat × JValue)

/-- `Map::get`: first association for `key`. -/
def lookupField : JObject → List Nat → Option JValue
  | [], _ => none
  | (k, v) :: rest, key => if k = key then some v else lookupField rest key

/-- The bytes of the key `id` probed by `json.get("id")`. -/
def idKey : List Nat := [105, 100]

/-- The direction tag of a copy loop (`"recv"` / `"send"` in the source). -/
inductive Dir where
  | recv
  | send
  deriving DecidableEq, Repr

/-- One `log::info!` event of `copy_io`: the loop's direction tag, the
connection's port, and the frame's `id` value, exactly as interpolated
into the log line. -/
structure LogEvent where
  dir : Dir
  port : Nat
  messageId : JValue

/-- One action on the write half: a `write_all` of some bytes, or a
`flush`. -/
inductive WAct where
  | write (bs : List Nat)
  | flush

/-- The header bytes written by `copy_io` for a frame of declared length
`n`: `format!("Content-Length: {}\r\n\r\n", content_len)`. -/
def clHeaderBytes (n : Nat) : List Nat :=
  clMark ++ natToDecimal n ++ [13, 10, 13, 10]

/-- The encode step of `copy_io` (lines 139-144): write the
`Content-Length` header, write the untouched body bytes, flush.  No other
header (in particular no `Content-Type`) is written. -/
def encodeFrame (n : Nat) (packet : List Nat) : List WAct :=
  [.write (clHeaderBytes n), .write packet, .flush]

/-- The byte stream produced by a sequence of write actions (`flush`
emits nothing). -/
def wactsBytes : List WAct → List Nat
  | [] => []
  | .write bs :: rest => bs ++ wactsBytes rest
  | .flush :: rest => wactsBytes rest

/-- One iteration of the `copy_io` loop, parameterised by the external
JSON parser `parse` (`serde_json::from_slice::<Map<String, Value>>`,
where `none` models a parse error — the `expect("invalid packet")`
panic): decode a frame, parse the body, log the `id` field when present,
then emit the encode actions.  Returns the write actions, the log events,
and the unconsumed input. -/
def copyStep (parse : List Nat → Option JObject) (dir : Dir) (port : Nat)
    (input : List Nat) : Except FrameErr (List WAct × List LogEvent × List Nat) :=
  match readFrame input with
  | .error e => .error e
  | .ok (n, packet, rest) =>
    match parse packet with
    | none => .error .invalidPacket
    | some json =>
      let evs : List LogEvent :=
        match lookupField json idKey with
        | some v => [⟨dir, port, v⟩]
        | none => []
      .ok (encodeFrame n packet, evs, rest)

/-- The `copy_io` loop: iterate `copyStep` until a hard failure.  The
source's `loop` has no `break`; the only exits are failures, so the
result is the accumulated write actions and log events together with the
terminating error — `none` in the error slot means the fuel ran out with
the loop still running (never the case for `fuel > input.length`,
theorem on claim C10). -/
def copyLoop (parse : List Nat → Option JObject) (dir : Dir) (port : Nat) :
    Nat → List Nat → List WAct × List LogEvent × Option FrameErr
  | 0, _ => ([], [], none)
  | fuel + 1, input =>
    match copyStep parse dir port input with
    | .error e => ([], [], some e)
    | .ok (acts, evs, rest) =>
      let r := copyLoop parse dir port fuel rest
      (acts ++ r.1, evs ++ r.2.1, r.2.2)

/-- Modelled from the spec: the handshake record `ProtoInit` lives in the
`ra_multiplex` library crate, whose source is not part of this tree; the
spec requires a protocol-version marker, an ordered list of launch
argument strings and a working-directory path.  Strings are carried as
byte lists. -/
structure ProtoInit where
  version : Nat
  args : List (List Nat)
  cwd : List Nat
  deriving DecidableEq

/-- Modelled from the spec: the single protocol version this relay
understands (the spec's end-to-end scenario handshakes with
`"version": 1` and succeeds). -/
def protoVersion : Nat := 1

/-- Modelled from the spec: `ProtoInit::check_version`, true exactly when
the version marker equals the single supported value. -/
def ProtoInit.checkVersion (p : ProtoInit) : Bool := p.version = protoVersion

/-- The bytes handed to the handshake decoder by `process_client`
(lines 58-63): `read_until(b'\0')` into `header`, then `header.pop()`.
Note `pop` removes the final byte unconditionally — the null terminator
when one was found, otherwise the last byte of the truncated stream. -/
def handshakeHeader (input : List Nat) : List Nat :=
  ((readUntilByte 0 input).1).dropLast

/-- The outcome of `process_client` up to the spawning of the child
process: a handshake decode failure (`invalid proto init`), a version
mismatch (`invalid protocol version`), or a spawned child with the
decoded record and the stream remainder handed to the relay loops.
The two failure outcomes close the connection; only `spawnChild` launches
a process. -/
inductive ClientStep where
  | initError
  | versionError
  | spawnChild (p : ProtoInit) (rest : List Nat)
  deriving DecidableEq

/-- The handshake phase of `process_client` (lines 58-75), parameterised
by the external handshake parser (`serde_json::from_slice::<ProtoInit>`,
`none` modelling a decode error): read to the null terminator, decode,
check the version, and only then spawn the child process. -/
def processClient (parseInit : List Nat → Option ProtoInit) (input : List Nat) :
    ClientStep :=
  let header := handshakeHeader input
  let rest := (readUntilByte 0 input).2
  match parseInit header with
  | none => .initError
  | some p => if p.checkVersion then .spawnChild p rest else .versionError

/-- The kind of an I/O error surfaced by `listener.accept()`; the source
distinguishes exactly `ErrorKind::NotConnected` from everything else, so
a handful of representative kinds plus a catch-all code suffice. -/
inductive IoErrorKind where
  | notConnected
  | connectionReset
  | connectionAborted
  | brokenPipe
  | other (code : Nat)
  deriving DecidableEq, Repr

/-- The accept loop's reaction to an accept error. -/
inductive AcceptOutcome where
  | continueLoop
  | fatalExit (k : IoErrorKind)
  deriving DecidableEq, Repr

/-- The `Err` arm of the accept loop in `main` (lines 165-171): the log
lines emitted at this site, and whether the loop continues.
`ErrorKind::NotConnected` is matched by `=> {}` — no log call, loop
continues; every other kind is propagated with `?`, ending `main` and
the whole process. -/
def handleAcceptError (k : IoErrorKind) : List IoErrorKind × AcceptOutcome :=
  match k with
  | .notConnected => ([], .continueLoop)
  | k => ([], .fatalExit k)

/-- Modelled from the spec: a concrete instance of the external JSON
parser, covering flat objects with unescaped string keys and
unsigned-integer, string, `null`, `true` or `false` values.  It exists
only to instantiate the `parse` parameter of `copyStep` in closed
witnesses; all theorems quantify over the parser. -/
def jString : List Nat → Option (List Nat × List Nat)
  | [] => none
  | b :: r =>
    if b = 34 then some ([], r)
    else if b = 92 then none
    else
      match jString r with
      | some (s, r1) => some (b :: s, r1)
      | none => none

/-- Leading decimal-digit run of a byte list, and the rest. -/
def takeDigits : List Nat → List Nat × List Nat
  | [] => ([], [])
  | b :: r =>
    if 48 ≤ b ∧ b ≤ 57 then
      let p := takeDigits r
      (b :: p.1, p.2)
    else ([], b :: r)

/-- One scalar JSON value for `miniParse`. -/
def jScalar : List Nat → Option (JValue × List Nat)
  | 110 :: 117 :: 108 :: 108 :: r => some (.null, r)
  | 116 :: 114 :: 117 :: 101 :: r => some (.boolean true, r)
  | 102 :: 97 :: 108 :: 115 :: 101 :: r => some (.boolean false, r)
  | 34 :: r =>
    match jString r with
    | some (s, r1) => some (.string s, r1)
    | none => none
  | bs =>
    let p := takeDigits bs
    if p.1 = [] then none else some (.number p.1, p.2)

/-- The members of a `miniParse` object after the opening brace, with
fuel bounding the member count. -/
def jMembers : Nat → List Nat → Option (JObject × List Nat)
  | 0, _ => none
  | fuel + 1, bs =>
    match bs with
    | 34 :: r =>
      match jString r with
      | none => none
      | some (k, r1) =>
        match r1 with
        | 58 :: r2 =>
          match jScalar r2 with
          | none => none
          | some (v, r3) =>
            match r3 with
            | 44 :: r4 =>
              match jMembers fuel r4 with
              | some (ms, r5) => some ((k, v) :: ms, r5)
              | none => none
            | 125 :: r4 => some ([(k, v)], r4)
            | _ => none
        | _ => none
    | _ => none

/-- Modelled from the spec: `miniParse`, the concrete witness instance of
the external JSON parser — accepts a whole input that is one flat object,
as `serde_json::from_slice` would (trailing bytes rejected). -/
def miniParse (bs : List Nat) : Option JObject :=
  match bs with
  | 123 :: 125 :: rest => if rest = [] then some [] else none
  | 123 :: r =>
    match jMembers (r.length + 1) r with
    | some (ms, rest) => if rest = [] then some ms else none
    | none => none
  | _ => none

/-! ## Properties of the stream primitives -/

theorem readUntilByte_append (t : Nat) (l : List Nat) :
    (readUntilByte t l).1 ++ (readUntilByte t l).2 = l := by
  induction l with
  | nil => rfl
  | cons b rest ih =>
    by_cases hb : b = t <;> simp [readUntilByte, hb, ih]

theorem readUntilByte_split (t : Nat) (l r : List Nat) (h : t ∉ l) :
    readUntilByte t (l ++ t :: r) = (l ++ [t], r) := by
  induction l with
  | nil => simp [readUntilByte]
  | cons b rest ih =>
    have hb : b ≠ t := by intro hbt; exact h (by simp [hbt])
    have hrest : t ∉ rest := fun hm => h (List.mem_cons_of_mem _ hm)
    simp [readUntilByte, hb, ih hrest]

theorem readUntilByte_found (t : Nat) (input : List Nat) (h : t ∈ input) :
    (readUntilByte t input).1 = input.takeWhile (fun b => b ≠ t) ++ [t] := by
  induction input with
  | nil => cases h
  | cons b rest ih =>
    by_cases hb : b = t
    · subst hb; simp [readUntilByte, List.takeWhile_cons]
    · have hrest : t ∈ rest := by cases h with
        | head => exact absurd rfl hb
        | tail _ hm => exact hm
      simp [readUntilByte, hb, List.takeWhile_cons, ih hrest]

theorem stripSuffix_append (s t : List Nat) : stripSuffix s (t ++ s) = some t := by
  unfold stripSuffix
  rw [if_pos]
  · congr 1
    rw [List.length_append, Nat.add_sub_cancel, List.take_left]
  · exact List.isSuffixOf_iff_suffix.mpr (List.suffix_append t s)

theorem stripSuffix_eq_some {s l t : List Nat} (h : stripSuffix s l = some t) :
    l = t ++ s := by
  unfold stripSuffix at h
  split at h
  · next hs =>
    obtain ⟨pre, hpre⟩ := List.isSuffixOf_iff_suffix.mp hs
    cases h
    subst hpre
    rw [List.length_append, Nat.add_sub_cancel, List.take_left]
  · cases h

theorem stripSuffix_length {s l t : List Nat} (h : stripSuffix s l = some t) :
    l.length = t.length + s.length := by
  rw [stripSuffix_eq_some h, List.length_append]

/-! ## Decimal rendering and parsing -/

theorem natToDecimalAux_digits (fuel : Nat) :
    ∀ n, n ≤ fuel → ∀ b ∈ natToDecimalAux fuel n, 48 ≤ b ∧ b ≤ 57 := by
  induction fuel with
  | zero => intro n _ b hb; simp [natToDecimalAux] at hb
  | succ f ih =>
    intro n hn b hb
    unfold natToDecimalAux at hb
    split at hb
    · simp at hb
    · next h0 =>
      rw [List.mem_append] at hb
      cases hb with
      | inl h =>
        have hlt : n / 10 < n := Nat.div_lt_self (Nat.pos_of_ne_zero h0) (by norm_num)
        exact ih (n / 10) (by omega) b h
      | inr h =>
        simp at h
        have : n % 10 < 10 := Nat.mod_lt _ (by omega)
        omega

theorem parseDigits_snoc (l : List Nat) (d : Nat) (hd : d < 10) :
    ∀ acc a, parseDigits l acc = some a →
      parseDigits (l ++ [d + 48]) acc = some (a * 10 + d) := by
  induction l with
  | nil =>
    intro acc a ha
    have hc : 48 ≤ d + 48 ∧ d + 48 ≤ 57 := by omega
    have h1 : digitVal (d + 48) = some d := by
      unfold digitVal
      rw [if_pos hc, Nat.add_sub_cancel]
    have ha2 : a = acc := by
      simpa [parseDigits] using ha.symm
    subst ha2
    simp [parseDigits, h1]
  | cons b l ih =>
    intro acc a ha
    simp only [List.cons_append, parseDigits] at ha ⊢
    cases hb : digitVal b with
    | none => rw [hb] at ha; cases ha
    | some v =>
      rw [hb] at ha
      exact ih (acc * 10 + v) a ha

theorem parseDigits_natToDecimalAux (fuel : Nat) :
    ∀ n acc, n ≤ fuel →
      parseDigits (natToDecimalAux fuel n) acc =
        some (acc * 10 ^ (natToDecimalAux fuel n).length + n) := by
  induction fuel with
  | zero =>
    intro n acc hn
    have h0 : n = 0 := by omega
    subst h0
    simp [natToDecimalAux, parseDigits]
  | succ f ih =>
    intro n acc hn
    by_cases h0 : n = 0
    · subst h0; simp [natToDecimalAux, parseDigits]
    · have hlt : n / 10 < n := Nat.div_lt_self (Nat.pos_of_ne_zero h0) (by norm_num)
      have hdiv : n / 10 ≤ f := by omega
      simp only [natToDecimalAux, if_neg h0]
      rw [parseDigits_snoc _ _ (Nat.mod_lt _ (by norm_num)) acc _ (ih (n / 10) acc hdiv)]
      congr 1
      rw [List.length_append, List.length_cons, List.length_nil, pow_succ, ← mul_assoc]
      generalize acc * 10 ^ (natToDecimalAux f (n / 10)).length = m
      omega

theorem natToDecimal_digits (n : Nat) : ∀ b ∈ natToDecimal n, 48 ≤ b ∧ b ≤ 57 := by
  intro b hb
  unfold natToDecimal at hb
  split at hb
  · simp at hb; omega
  · exact natToDecimalAux_digits n n (Nat.le_refl n) b hb

theorem parseUsize_natToDecimal {n : Nat} (h : n < 2 ^ 64) :
    parseUsize (natToDecimal n) = some n := by
  by_cases h0 : n = 0
  · subst h0; decide
  · have hne : natToDecimalAux n n ≠ [] := by
      unfold natToDecimalAux
      cases n with
      | zero => exact absurd rfl h0
      | succ m => simp [h0]
    have hparse := parseDigits_natToDecimalAux n n 0 (Nat.le_refl n)
    have hhead : ∀ t, natToDecimalAux n n ≠ 43 :: t := by
      intro t ht
      have := natToDecimalAux_digits n n (Nat.le_refl n) 43 (by rw [ht]; simp)
      omega
    unfold parseUsize natToDecimal
    rw [if_neg h0]
    have hmatch : (match natToDecimalAux n n with
        | 43 :: t => t
        | _ => natToDecimalAux n n) = natToDecimalAux n n := by
      match hds : natToDecimalAux n n with
      | [] => rfl
      | 43 :: t => exact absurd hds (hhead t)
      | b :: t =>
        by_cases hb : b = 43
        · subst hb; exact absurd hds (hhead t)
        · simp [hb]
    simp only [hmatch]
    rw [if_neg (by simpa using hne)]
    rw [hparse]
    have h2 : 0 * 10 ^ (natToDecimalAux n n).length + n < 2 ^ 64 := by omega
    have h3 : n < 18446744073709551616 := by omega
    simp [h2, h3]

theorem utf8Valid_ascii : ∀ l : List Nat, (∀ b ∈ l, b ≤ 127) → utf8Valid l = true := by
  intro l
  induction l with
  | nil => intro; rfl
  | cons b rest ih =>
    intro h
    have hb : b ≤ 127 := h b (List.mem_cons_self b rest)
    have hneed : utf8Need b = some (0, 0, 0) := by
      unfold utf8Need
      rw [if_pos hb]
    show utf8ValidSt 0 0 0 (b :: rest) = true
    rw [utf8ValidSt, hneed]
    exact ih fun x hx => h x (List.mem_cons_of_mem _ hx)

theorem parseContentLen_natToDecimal {n : Nat} (h : n < 2 ^ 64) :
    parseContentLen (natToDecimal n) = .ok n := by
  unfold parseContentLen
  rw [utf8Valid_ascii _ (fun b hb => by have := natToDecimal_digits n b hb; omega)]
  rw [if_pos rfl, parseUsize_natToDecimal h]

/-! ## Properties of the header reader -/

theorem ctMark_not_prefixOf_cl (dec : List Nat) :
    ctMark.isPrefixOf (clMark ++ dec) = false := by
  rw [Bool.eq_false_iff]
  intro h
  have hp := List.isPrefixOf_iff_prefix.mp h
  have ht := List.prefix_iff_eq_take.mp hp
  have hlen : ctMark.length = 14 := by decide
  rw [hlen, List.take_append_of_le_length (by decide : 14 ≤ clMark.length)] at ht
  exact absurd ht (by decide)

theorem clMark_prefixOf_append (dec : List Nat) :
    clMark.isPrefixOf (clMark ++ dec) = true := by
  rw [List.isPrefixOf_iff_prefix]
  exact List.prefix_append clMark dec

theorem readUntilByte_length (t : Nat) (input : List Nat) :
    (readUntilByte t input).1.length + (readUntilByte t input).2.length = input.length := by
  have h := congrArg List.length (readUntilByte_append t input)
  rw [List.length_append] at h
  exact h

theorem readHeadersF_fuel_irrel :
    ∀ f g input ctype clen, input.length < f → input.length < g →
      readHeadersF f input ctype clen = readHeadersF g input ctype clen := by
  intro f
  induction f with
  | zero => intro g input _ _ hf _; exact absurd hf (by omega)
  | succ f ih =>
    intro g input ctype clen hf hg
    cases g with
    | zero => exact absurd hg (by omega)
    | succ g =>
      simp only [readHeadersF]
      cases hstrip : stripSuffix [13, 10] (readUntilByte 10 input).1 with
      | none => rfl
      | some text =>
        have hchunk := stripSuffix_length hstrip
        simp only [List.length_cons, List.length_nil] at hchunk
        have htot := readUntilByte_length 10 input
        have hrest : (readUntilByte 10 input).2.length < f ∧
            (readUntilByte 10 input).2.length < g := by omega
        by_cases htext : text = []
        · simp [htext]
        · simp only [if_neg htext]
          by_cases hct : ctMark.isPrefixOf text = true
          · simp only [hct, if_true]
            exact ih g _ _ _ hrest.1 hrest.2
          · simp only [Bool.not_eq_true] at hct
            simp only [hct, Bool.false_eq_true, if_false]
            by_cases hcl : clMark.isPrefixOf text = true
            · simp only [hcl, if_true]
              cases parseContentLen (text.drop clMark.length) with
              | error e => rfl
              | ok n => exact ih g _ _ _ hrest.1 hrest.2
            · simp only [Bool.not_eq_true] at hcl
              simp only [hcl, Bool.false_eq_true, if_false]

/-- Characterisation of the header reader on one well-formed header line
(`l` contains no newline byte): it consumes `l ++ [13, 10]` and
dispatches on `l` exactly as `copy_io`'s inner loop does. -/
theorem readHeaders_line (l r : List Nat) (ctype : Option (List Nat)) (clen : Option Nat)
    (h10 : 10 ∉ l) :
    readHeaders (l ++ [13, 10] ++ r) ctype clen =
      if l = [] then .ok (ctype, clen, r)
      else if ctMark.isPrefixOf l then readHeaders r (some (l.drop ctMark.length)) clen
      else if clMark.isPrefixOf l then
        match parseContentLen (l.drop clMark.length) with
        | .error e => .error e
        | .ok n => readHeaders r ctype (some n)
      else .error .invalidHeader := by
  have hsplit : readUntilByte 10 (l ++ [13, 10] ++ r) = (l ++ [13, 10], r) := by
    have heq : l ++ [13, 10] ++ r = (l ++ [13]) ++ 10 :: r := by simp
    rw [heq, readUntilByte_split 10 (l ++ [13]) r]
    · simp
    · intro hmem
      rcases List.mem_append.mp hmem with h | h
      · exact h10 h
      · simp at h
  unfold readHeaders
  conv_lhs => rw [readHeadersF]
  rw [hsplit]
  simp only
  rw [stripSuffix_append [13, 10] l]
  simp only
  by_cases htext : l = []
  · simp [htext]
  · simp only [if_neg htext]
    have hlen : r.length < (l ++ [13, 10] ++ r).length := by
      simp [List.length_append]
      omega
    by_cases hct : ctMark.isPrefixOf l = true
    · simp only [hct, if_true]
      exact readHeadersF_fuel_irrel _ _ r _ _ hlen (Nat.lt_succ_self _)
    · simp only [Bool.not_eq_true] at hct
      simp only [hct, Bool.false_eq_true, if_false]
      by_cases hcl : clMark.isPrefixOf l = true
      · simp only [hcl, if_true]
        cases parseContentLen (l.drop clMark.length) with
        | error e => rfl
        | ok n => exact readHeadersF_fuel_irrel _ _ r _ _ hlen (Nat.lt_succ_self _)
      · simp only [Bool.not_eq_true] at hcl
        simp only [hcl, Bool.false_eq_true, if_false]

theorem readHeadersF_ok_length :
    ∀ f input ctype clen ct cl rest,
      readHeadersF f input ctype clen = .ok (ct, cl, rest) → rest.length < input.length := by
  intro f
  induction f with
  | zero => intro input ctype clen ct cl rest h; cases h
  | succ f ih =>
    intro input ctype clen ct cl rest
    rw [readHeadersF]
    cases hstrip : stripSuffix [13, 10] (readUntilByte 10 input).1 with
    | none => intro h; cases h
    | some text =>
      have hchunk := stripSuffix_length hstrip
      simp only [List.length_cons, List.length_nil] at hchunk
      have htot := readUntilByte_length 10 input
      by_cases htext : text = []
      · simp only [if_pos htext]
        intro h
        cases h
        omega
      · simp only [if_neg htext]
        by_cases hct : ctMark.isPrefixOf text = true
        · simp only [hct, if_true]
          intro h
          have := ih _ _ _ _ _ _ h
          omega
        · simp only [Bool.not_eq_true] at hct
          simp only [hct, Bool.false_eq_true, if_false]
          by_cases hcl : clMark.isPrefixOf text = true
          · simp only [hcl, if_true]
            cases hp : parseContentLen (text.drop clMark.length) with
            | error e => intro h; cases h
            | ok n =>
              intro h
              have := ih _ _ _ _ _ _ h
              omega
          · simp only [Bool.not_eq_true] at hcl
            simp only [hcl, Bool.false_eq_true, if_false]
            intro h
            cases h

/-! ## Properties of the frame decode step -/

/-- Decoding a stream that starts with an encoded `Content-Length` header
block: the declared length is recovered and exactly that many body bytes
are taken, or the decode fails when the stream is too short. -/
theorem readFrame_clHeader (n : Nat) (body : List Nat) (hn : n < 2 ^ 64) :
    readFrame (clHeaderBytes n ++ body) =
      if body.length < n then .error .bodyEof
      else .ok (n, body.take n, body.drop n) := by
  have hshape : clHeaderBytes n ++ body =
      (clMark ++ natToDecimal n) ++ [13, 10] ++ ([13, 10] ++ body) := by
    simp [clHeaderBytes]
  have h10 : 10 ∉ clMark ++ natToDecimal n := by
    intro hmem
    rcases List.mem_append.mp hmem with h | h
    · revert h; decide
    · have := natToDecimal_digits n 10 h; omega
  have hne : clMark ++ natToDecimal n ≠ [] := by simp [clMark]
  have hline1 : readHeaders ((clMark ++ natToDecimal n) ++ [13, 10] ++ ([13, 10] ++ body))
      none none = readHeaders ([13, 10] ++ body) none (some n) := by
    rw [readHeaders_line _ _ _ _ h10, if_neg hne]
    simp only [ctMark_not_prefixOf_cl, Bool.false_eq_true, if_false,
      clMark_prefixOf_append, if_true, List.drop_left, parseContentLen_natToDecimal hn]
  have hline2 := readHeaders_line [] body none (some n) (by simp)
  simp only [List.nil_append, eq_self_iff_true, if_true] at hline2
  unfold readFrame
  rw [hshape, hline1, hline2]

/-- A successful frame decode returns a body of exactly the declared
length and consumes at least one input byte. -/
theorem readFrame_ok_facts {input : List Nat} {n : Nat} {body rest : List Nat}
    (h : readFrame input = .ok (n, body, rest)) :
    body.length = n ∧ rest.length < input.length := by
  unfold readFrame at h
  cases hh : readHeaders input none none with
  | error e => rw [hh] at h; cases h
  | ok r =>
    obtain ⟨ct, clen, hrest⟩ := r
    rw [hh] at h
    cases clen with
    | none => cases h
    | some m =>
      simp only at h
      by_cases hlt : hrest.length < m
      · rw [if_pos hlt] at h; cases h
      · rw [if_neg hlt] at h
        cases h
        have hcons := readHeadersF_ok_length _ _ _ _ _ _ _ hh
        constructor
        · rw [List.length_take]; omega
        · rw [List.length_drop]; omega

/-- A successful relay step consumes at least one input byte. -/
theorem copyStep_ok_consumes {parse : List Nat → Option JObject} {dir : Dir} {port : Nat}
    {input : List Nat} {acts : List WAct} {evs : List LogEvent} {rest : List Nat}
    (h : copyStep parse dir port input = .ok (acts, evs, rest)) :
    rest.length < input.length := by
  unfold copyStep at h
  cases hf : readFrame input with
  | error e => rw [hf] at h; cases h
  | ok r =>
    obtain ⟨n, packet, rest'⟩ := r
    rw [hf] at h
    simp only at h
    cases hp : parse packet with
    | none => rw [hp] at h; cases h
    | some json =>
      rw [hp] at h
      simp only at h
      cases h
      exact (readFrame_ok_facts hf).2

/-- With fuel exceeding the input length, the copy loop always reaches a
terminating error (it has no other exit). -/
theorem copyLoop_halts (parse : List Nat → Option JObject) (dir : Dir) (port : Nat) :
    ∀ fuel input, input.length < fuel →
      ((copyLoop parse dir port fuel input).2.2).isSome = true := by
  intro fuel
  induction fuel with
  | zero => intro input h; exact absurd h (by omega)
  | succ f ih =>
    intro input h
    rw [copyLoop]
    cases hs : copyStep parse dir port input with
    | error e => simp
    | ok r =>
      obtain ⟨acts, evs, rest⟩ := r
      have hcons := copyStep_ok_consumes hs
      simp only
      exact ih rest (by omega)

/-! ## Rendered header blocks -/

/-- The byte rendering of a header block: each header line followed by
CRLF, then the CRLF-only terminator line. -/
def renderBlock (lines : List (List Nat)) : List Nat :=
  (lines.map (fun l => l ++ [13, 10])).flatten ++ [13, 10]

/-- A well-formed header line: non-empty (not the terminator) and free of
the newline byte (so it renders as a single `read_until` chunk). -/
def WfLine (l : List Nat) : Prop := l ≠ [] ∧ 10 ∉ l

theorem renderBlock_cons (l : List Nat) (ls : List (List Nat)) (rest : List Nat) :
    renderBlock (l :: ls) ++ rest = l ++ [13, 10] ++ (renderBlock ls ++ rest) := by
  simp [renderBlock, List.append_assoc]

theorem renderBlock_nil (rest : List Nat) :
    renderBlock [] ++ rest = [13, 10] ++ rest := by
  simp [renderBlock]

/-- If any line of a block has neither recognized header mark as a
prefix, the header reader fails (possibly already at an earlier
ill-formed `Content-Length` value). -/
theorem readHeaders_offender (lines : List (List Nat)) :
    ∀ ctype clen rest, (∀ l ∈ lines, WfLine l) →
      (∃ l ∈ lines, ctMark.isPrefixOf l = false ∧ clMark.isPrefixOf l = false) →
      ∃ e, readHeaders (renderBlock lines ++ rest) ctype clen = .error e := by
  induction lines with
  | nil =>
    rintro ctype clen rest _ ⟨l, hl, _⟩
    cases hl
  | cons l ls ih =>
    rintro ctype clen rest hwf ⟨o, ho, hoct, hocl⟩
    have hwl := hwf l (List.mem_cons_self l ls)
    rw [renderBlock_cons, readHeaders_line l _ ctype clen hwl.2, if_neg hwl.1]
    by_cases hct : ctMark.isPrefixOf l = true
    · rw [if_pos hct]
      have hols : ∃ x ∈ ls, ctMark.isPrefixOf x = false ∧ clMark.isPrefixOf x = false := by
        cases ho with
        | head => rw [hct] at hoct; cases hoct
        | tail _ hmem => exact ⟨o, hmem, hoct, hocl⟩
      exact ih _ _ _ (fun x hx => hwf x (List.mem_cons_of_mem _ hx)) hols
    · simp only [Bool.not_eq_true] at hct
      rw [hct]
      simp only [Bool.false_eq_true, if_false]
      by_cases hcl : clMark.isPrefixOf l = true
      · rw [if_pos hcl]
        have hols : ∃ x ∈ ls, ctMark.isPrefixOf x = false ∧ clMark.isPrefixOf x = false := by
          cases ho with
          | head => rw [hcl] at hocl; cases hocl
          | tail _ hmem => exact ⟨o, hmem, hoct, hocl⟩
        cases hp : parseContentLen (l.drop clMark.length) with
        | error e => exact ⟨e, rfl⟩
        | ok n => exact ih _ _ _ (fun x hx => hwf x (List.mem_cons_of_mem _ hx)) hols
      · simp only [Bool.not_eq_true] at hcl
        rw [hcl]
        simp only [Bool.false_eq_true, if_false]
        exact ⟨.invalidHeader, rfl⟩

/-- If no line of a block has the `Content-Length` mark as a prefix, the
header reader either fails or succeeds with the content-length slot
unchanged. -/
theorem readHeaders_no_cl (lines : List (List Nat)) :
    ∀ ctype clen rest, (∀ l ∈ lines, WfLine l) →
      (∀ l ∈ lines, clMark.isPrefixOf l = false) →
      (∃ e, readHeaders (renderBlock lines ++ rest) ctype clen = .error e) ∨
        (∃ ct, readHeaders (renderBlock lines ++ rest) ctype clen = .ok (ct, clen, rest)) := by
  induction lines with
  | nil =>
    intro ctype clen rest _ _
    right
    refine ⟨ctype, ?_⟩
    rw [renderBlock_nil]
    have h := readHeaders_line [] rest ctype clen (by simp)
    simpa using h
  | cons l ls ih =>
    intro ctype clen rest hwf hnocl
    have hwl := hwf l (List.mem_cons_self l ls)
    rw [renderBlock_cons, readHeaders_line l _ ctype clen hwl.2, if_neg hwl.1]
    by_cases hct : ctMark.isPrefixOf l = true
    · rw [if_pos hct]
      exact ih _ _ _ (fun x hx => hwf x (List.mem_cons_of_mem _ hx))
        (fun x hx => hnocl x (List.mem_cons_of_mem _ hx))
    · simp only [Bool.not_eq_true] at hct
      rw [hct]
      simp only [Bool.false_eq_true, if_false]
      rw [hnocl l (List.mem_cons_self l ls)]
      simp only [Bool.false_eq_true, if_false]
      exact Or.inl ⟨.invalidHeader, rfl⟩

/-- A header-reader error is a frame-decode error. -/
theorem readFrame_headers_error {input : List Nat} {e : FrameErr}
    (h : readHeaders input none none = .error e) : readFrame input = .error e := by
  unfold readFrame
  rw [h]

/-- A header block read without any recorded `Content-Length` makes the
frame decode fail with the missing-content-length panic. -/
theorem readFrame_no_clen {input : List Nat} {ct : Option (List Nat)} {rest : List Nat}
    (h : readHeaders input none none = .ok (ct, none, rest)) :
    readFrame input = .error .missingContentLen := by
  unfold readFrame
  rw [h]

/-! ## Handshake reading -/

theorem handshakeHeader_eq {input : List Nat} (h : 0 ∈ input) :
    handshakeHeader input = input.takeWhile (fun b => b ≠ 0) := by
  unfold handshakeHeader
  rw [readUntilByte_found 0 input h, List.dropLast_concat]

/-! ## The claims -/

/-- Claim C1: for every frame encoded from an arbitrary header length and
a matching arbitrary byte body (body length equals the declared length),
running the relay's frame decode step on the encoded bytes yields the
original body bytes exactly; moreover, whenever the body parses as a JSON
document, the full relay iteration on the encoded bytes succeeds and
re-emits exactly the same encode actions. -/
theorem claim1_roundTrip (n : Nat) (body : List Nat)
    (hn : n < 2 ^ 64) (hlen : body.length = n) :
    readFrame (wactsBytes (encodeFrame n body)) = .ok (n, body, []) ∧
      ∀ parse dir port fields, parse body = some fields →
        ∃ evs, copyStep parse dir port (wactsBytes (encodeFrame n body)) =
          .ok (encodeFrame n body, evs, []) := by
  have hw : wactsBytes (encodeFrame n body) = clHeaderBytes n ++ body := by
    simp [wactsBytes, encodeFrame]
  have hfr : readFrame (wactsBytes (encodeFrame n body)) = .ok (n, body, []) := by
    rw [hw, readFrame_clHeader n body hn, if_neg (by omega)]
    subst hlen
    simp [List.take_length]
  refine ⟨hfr, ?_⟩
  intro parse dir port fields hp
  unfold copyStep
  rw [hfr]
  simp only
  rw [hp]
  exact ⟨_, rfl⟩

/-- Witness for C1 at `n = 2`, body `{}`. -/
theorem claim1_roundTrip_witness :
    (2 < 2 ^ 64 ∧ ([123, 125] : List Nat).length = 2) ∧
      readFrame (wactsBytes (encodeFrame 2 [123, 125])) = .ok (2, [123, 125], []) :=
  ⟨⟨by decide, by decide⟩, (claim1_roundTrip 2 [123, 125] (by decide) (by decide)).1⟩

/-- Claim C2: for every successfully decoded frame with declared length
`n` and body `body`, a successful relay iteration writes exactly the
header `Content-Length: <n>\r\n\r\n` (as bytes: `clMark`, the decimal of
`n`, CRLF CRLF), then the body unchanged, then flushes — no other header,
in particular no `Content-Type`, is emitted — and `n` is the declared
length received from the decode (which always equals the body byte
count), never recomputed elsewhere. -/
theorem claim2_encode (parse : List Nat → Option JObject) (dir : Dir) (port : Nat)
    (input : List Nat) (n : Nat) (body rest : List Nat)
    (acts : List WAct) (evs : List LogEvent) (rest' : List Nat)
    (hframe : readFrame input = .ok (n, body, rest))
    (hstep : copyStep parse dir port input = .ok (acts, evs, rest')) :
    acts = [.write (clMark ++ natToDecimal n ++ [13, 10, 13, 10]), .write body, .flush] ∧
      body.length = n ∧ rest' = rest := by
  unfold copyStep at hstep
  rw [hframe] at hstep
  simp only at hstep
  cases hp : parse body with
  | none => rw [hp] at hstep; cases hstep
  | some json =>
    rw [hp] at hstep
    simp only at hstep
    cases hstep
    refine ⟨rfl, (readFrame_ok_facts hframe).1, rfl⟩

/-- Witness for C2 on the frame `Content-Length: 2\r\n\r\n{}`. -/
theorem claim2_encode_witness :
    (readFrame (clHeaderBytes 2 ++ [123, 125]) = .ok (2, [123, 125], []) ∧
        copyStep miniParse Dir.recv 0 (clHeaderBytes 2 ++ [123, 125]) =
          .ok (encodeFrame 2 [123, 125], [], [])) ∧
      encodeFrame 2 [123, 125] =
        [.write (clMark ++ natToDecimal 2 ++ [13, 10, 13, 10]), .write [123, 125], .flush] ∧
      ([123, 125] : List Nat).length = 2 ∧ ([] : List Nat) = [] :=
  ⟨⟨by rfl, by rfl⟩,
    claim2_encode miniParse Dir.recv 0 (clHeaderBytes 2 ++ [123, 125]) 2 [123, 125] []
      (encodeFrame 2 [123, 125]) [] [] (by rfl) (by rfl)⟩

/-- Claim C3: a header block containing a line with neither recognized
(case-sensitive) header mark fails decoding; a block in which no line
carries the `Content-Length` mark fails decoding; and a block consisting
of only a `Content-Length` line and the blank terminator, followed by at
least the declared number of body bytes, always decodes successfully. -/
theorem claim3_headerBlock :
    (∀ lines rest, (∀ l ∈ lines, WfLine l) →
        (∃ l ∈ lines, ctMark.isPrefixOf l = false ∧ clMark.isPrefixOf l = false) →
        ∃ e, readFrame (renderBlock lines ++ rest) = .error e) ∧
      (∀ lines rest, (∀ l ∈ lines, WfLine l) →
        (∀ l ∈ lines, clMark.isPrefixOf l = false) →
        ∃ e, readFrame (renderBlock lines ++ rest) = .error e) ∧
      (∀ n body, n < 2 ^ 64 → n ≤ body.length →
        readFrame (clHeaderBytes n ++ body) = .ok (n, body.take n, body.drop n)) := by
  refine ⟨?_, ?_, ?_⟩
  · intro lines rest hwf hoff
    obtain ⟨e, he⟩ := readHeaders_offender lines none none rest hwf hoff
    exact ⟨e, readFrame_headers_error he⟩
  · intro lines rest hwf hnocl
    rcases readHeaders_no_cl lines none none rest hwf hnocl with ⟨e, he⟩ | ⟨ct, hok⟩
    · exact ⟨e, readFrame_headers_error he⟩
    · exact ⟨.missingContentLen, readFrame_no_clen hok⟩
  · intro n body hn hge
    rw [readFrame_clHeader n body hn, if_neg (by omega)]

/-- Witness for C3: the unknown header `X`, the empty block, and
`Content-Length: 1` with two available body bytes. -/
theorem claim3_headerBlock_witness :
    (∃ e, readFrame (renderBlock [[88]] ++ []) = .error e) ∧
      (∃ e, readFrame (renderBlock [] ++ []) = .error e) ∧
      readFrame (clHeaderBytes 1 ++ [49, 50]) = .ok (1, [49], [50]) :=
  ⟨claim3_headerBlock.1 [[88]] []
      (by
        intro l hl
        rw [List.mem_singleton] at hl
        subst hl
        exact ⟨by decide, by decide⟩)
      ⟨[88], by decide, by decide, by decide⟩,
    claim3_headerBlock.2.1 [] [] (by simp) (by simp),
    claim3_headerBlock.2.2 1 [49, 50] (by decide) (by decide)⟩

/-- Claim C4: whenever the header block declares a `Content-Length`
larger than the number of bytes remaining before end of stream, the frame
decode fails with the end-of-stream error and the relay iteration
forwards nothing — no shorter body is ever accepted. -/
theorem claim4_truncatedBody (input rest : List Nat) (ct : Option (List Nat)) (n : Nat)
    (hh : readHeaders input none none = .ok (ct, some n, rest))
    (hshort : rest.length < n) :
    readFrame input = .error .bodyEof ∧
      ∀ parse dir port, copyStep parse dir port input = .error .bodyEof := by
  have hfr : readFrame input = .error .bodyEof := by
    unfold readFrame
    rw [hh]
    simp only
    rw [if_pos hshort]
  refine ⟨hfr, ?_⟩
  intro parse dir port
  unfold copyStep
  rw [hfr]

/-- Witness for C4: `Content-Length: 5` with only two body bytes. -/
theorem claim4_truncatedBody_witness :
    (readHeaders (clHeaderBytes 5 ++ [97, 98]) none none = .ok (none, some 5, [97, 98]) ∧
        ([97, 98] : List Nat).length < 5) ∧
      readFrame (clHeaderBytes 5 ++ [97, 98]) = .error .bodyEof ∧
      copyStep miniParse Dir.send 0 (clHeaderBytes 5 ++ [97, 98]) = .error .bodyEof :=
  ⟨⟨by rfl, by decide⟩,
    (claim4_truncatedBody (clHeaderBytes 5 ++ [97, 98]) [97, 98] none 5 (by rfl) (by decide)).1,
    (claim4_truncatedBody (clHeaderBytes 5 ++ [97, 98]) [97, 98] none 5 (by rfl) (by decide)).2
      miniParse Dir.send 0⟩

/-- Claim C5: when the handshake bytes fail to decode, or decode to a
record whose version marker differs from the single supported version,
the connection handler stops with an error before any child process is
spawned: the outcome is never `spawnChild`. -/
theorem claim5_handshakeGate (parseInit : List Nat → Option ProtoInit) (input : List Nat)
    (hbad : parseInit (handshakeHeader input) = none ∨
      ∃ p, parseInit (handshakeHeader input) = some p ∧ p.checkVersion = false) :
    (∀ q rest, processClient parseInit input ≠ .spawnChild q rest) ∧
      (processClient parseInit input = .initError ∨
        processClient parseInit input = .versionError) := by
  rcases hbad with hnone | ⟨p, hp, hv⟩
  · constructor
    · intro q rest hcon
      simp only [processClient, hnone] at hcon
      cases hcon
    · left
      simp [processClient, hnone]
  · constructor
    · intro q rest hcon
      simp only [processClient, hp, hv, Bool.false_eq_true, if_false] at hcon
      cases hcon
    · right
      simp [processClient, hp, hv]

/-- Witness for C5: a handshake that decodes with version `2`. -/
theorem claim5_handshakeGate_witness :
    ((ProtoInit.mk 2 [] [118]).checkVersion = false ∧
        (fun bs : List Nat => some (ProtoInit.mk 2 [] bs)) (handshakeHeader [118, 0]) =
          some (ProtoInit.mk 2 [] [118])) ∧
      (processClient (fun bs : List Nat => some (ProtoInit.mk 2 [] bs)) [118, 0] ≠
          .spawnChild (ProtoInit.mk 2 [] [118]) []) ∧
      (processClient (fun bs : List Nat => some (ProtoInit.mk 2 [] bs)) [118, 0] = .initError ∨
        processClient (fun bs : List Nat => some (ProtoInit.mk 2 [] bs)) [118, 0] =
          .versionError) :=
  ⟨⟨by rfl, by rfl⟩,
    (claim5_handshakeGate _ _
      (Or.inr ⟨ProtoInit.mk 2 [] [118], by rfl, by rfl⟩)).1 _ _,
    (claim5_handshakeGate _ _
      (Or.inr ⟨ProtoInit.mk 2 [] [118], by rfl, by rfl⟩)).2⟩

/-- Claim C6: for every successfully decoded and parsed frame, if the
parsed body exposes a top-level `id` field then exactly one log event is
produced, carrying that exact `id` value tagged with the loop's direction
and the connection's port; if no `id` field is present, no log event is
produced for that frame. -/
theorem claim6_idLogging (parse : List Nat → Option JObject) (dir : Dir) (port : Nat)
    (input : List Nat) (acts : List WAct) (evs : List LogEvent) (rest : List Nat)
    (n : Nat) (body rest' : List Nat) (fields : JObject)
    (hstep : copyStep parse dir port input = .ok (acts, evs, rest))
    (hframe : readFrame input = .ok (n, body, rest'))
    (hjson : parse body = some fields) :
    (∀ v, lookupField fields idKey = some v → evs = [⟨dir, port, v⟩]) ∧
      (lookupField fields idKey = none → evs = []) := by
  unfold copyStep at hstep
  rw [hframe] at hstep
  simp only at hstep
  rw [hjson] at hstep
  simp only at hstep
  cases hstep
  constructor
  · intro v hv
    simp [hv]
  · intro hv
    simp [hv]

/-- Witness for C6 on the frame with body `{"id":7}`. -/
theorem claim6_idLogging_witness :
    (copyStep miniParse Dir.recv 7 (clHeaderBytes 8 ++ [123, 34, 105, 100, 34, 58, 55, 125]) =
        .ok (encodeFrame 8 [123, 34, 105, 100, 34, 58, 55, 125],
          [⟨Dir.recv, 7, .number [55]⟩], []) ∧
      miniParse [123, 34, 105, 100, 34, 58, 55, 125] = some [([105, 100], .number [55])] ∧
      lookupField [([105, 100], .number [55])] idKey = some (.number [55])) ∧
      ([(⟨Dir.recv, 7, .number [55]⟩ : LogEvent)] = [⟨Dir.recv, 7, .number [55]⟩]) :=
  ⟨⟨by rfl, by rfl, by rfl⟩,
    (claim6_idLogging miniParse Dir.recv 7
        (clHeaderBytes 8 ++ [123, 34, 105, 100, 34, 58, 55, 125])
        (encodeFrame 8 [123, 34, 105, 100, 34, 58, 55, 125])
        [⟨Dir.recv, 7, .number [55]⟩] [] 8 [123, 34, 105, 100, 34, 58, 55, 125] []
        [([105, 100], .number [55])] (by rfl) (by rfl) (by rfl)).1 (.number [55]) (by rfl)⟩

/-- Claim C7: the handshake reader consumes the stream up to the first
null byte and hands the decoder exactly the bytes preceding that
terminator, the terminator itself excluded. -/
theorem claim7_handshakeBytes (input : List Nat) (h : 0 ∈ input) :
    handshakeHeader input = input.takeWhile (fun b => b ≠ 0) ∧
      ∀ parseInit, processClient parseInit input =
        match parseInit (input.takeWhile (fun b => b ≠ 0)) with
        | none => ClientStep.initError
        | some p =>
          if p.checkVersion then ClientStep.spawnChild p (readUntilByte 0 input).2
          else ClientStep.versionError := by
  refine ⟨handshakeHeader_eq h, ?_⟩
  intro parseInit
  unfold processClient
  rw [handshakeHeader_eq h]

/-- Witness for C7 on the stream `Hi\0\a`. -/
theorem claim7_handshakeBytes_witness :
    (0 ∈ [72, 105, 0, 7]) ∧ handshakeHeader [72, 105, 0, 7] = [72, 105] :=
  ⟨by decide, (claim7_handshakeBytes [72, 105, 0, 7] (by decide)).1⟩

/-- Counterexample to Claim C8 as stated: at the benign accept error
(`NotConnected`), the accept loop's error arm emits no log line at all,
so the claim's "it is logged" part is false (the loop does continue). -/
theorem claim8_acceptError_cex :
    ¬ ((handleAcceptError .notConnected).1 ≠ [] ∧
        (handleAcceptError .notConnected).2 = .continueLoop) := by
  rintro ⟨hlog, _⟩
  exact hlog rfl

/-- Claim C8 (amended): a benign accept error (`NotConnected`, peer gone
before the handshake) is ignored without any log line and the accept loop
continues; every other accept error is fatal to the whole process. -/
theorem claim8_acceptErrors (k : IoErrorKind) :
    (handleAcceptError k).1 = [] ∧
      ((handleAcceptError k).2 = .continueLoop ↔ k = .notConnected) := by
  cases k <;> simp [handleAcceptError]

/-- Claim C10: the copy loop has no successful termination: a cleanly
ended stream (empty input) makes the decode's empty header read fail the
CRLF check as a malformed header rather than report end-of-stream, and on
every finite input the loop, given ample fuel, stops only by reaching an
error. -/
theorem claim10_noCleanExit :
    (∀ parse : List Nat → Option JObject, ∀ dir port,
        copyStep parse dir port [] = .error .missingCrlf) ∧
      ∀ parse : List Nat → Option JObject, ∀ dir port fuel input,
        input.length < fuel →
          ((copyLoop parse dir port fuel input).2.2).isSome = true := by
  constructor
  · intro parse dir port
    rfl
  · intro parse dir port fuel input h
    exact copyLoop_halts parse dir port fuel input h

/-- Witness for C10 at the empty stream with fuel `1`. -/
theorem claim10_noCleanExit_witness :
    copyStep miniParse Dir.recv 0 [] = .error .missingCrlf ∧
      (([] : List Nat).length < 1) ∧
      ((copyLoop miniParse Dir.recv 0 1 []).2.2).isSome = true :=
  ⟨claim10_noCleanExit.1 miniParse Dir.recv 0, by decide,
    claim10_noCleanExit.2 miniParse Dir.recv 0 1 [] (by decide)⟩

end RaMultiplex
